import Mathlib

/-!
Verification of the hub metrics tap (`metrics_hub.py`): a shallow embedding of
the trial aggregation state machine, its topic router and coordinate parser,
with theorems settling the specified properties.
-/

set_option linter.unusedVariables false

/-! ### Coordinate parser and topic router (from `metrics_hub.py` lines 36-69) -/

/-- A grid cell: an integer pair, identity by value. -/
abbrev Cell := Int × Int

/-- Whitespace characters, as stripped by Python `str.strip()` / matched by `\s`
for the ASCII range used here. -/
def isSpace (c : Char) : Bool :=
  c = ' ' || c = '\t' || c = '\n' || c = '\r' || c = '\x0b' || c = '\x0c'

/-- Numeric value of a decimal digit character. -/
def digitVal (c : Char) : Nat := c.toNat - '0'.toNat

/-- Strip leading and trailing whitespace (Python `str.strip()`). -/
def stripChars (l : List Char) : List Char :=
  ((l.dropWhile isSpace).reverse.dropWhile isSpace).reverse

/-- Greedy parse of a non-empty run of decimal digits (regex `\d+`), returning
its value and the rest of the input. -/
def parseDigits (l : List Char) : Option (Nat × List Char) :=
  if (l.takeWhile Char.isDigit).isEmpty then none
  else
    some ((l.takeWhile Char.isDigit).foldl (fun a c => a * 10 + digitVal c) 0,
      l.dropWhile Char.isDigit)

/-- Parse of `-?\d+`: an optional leading minus sign then digits. -/
def parseSignedInt (l : List Char) : Option (Int × List Char) :=
  if l.head? = some '-' then
    match parseDigits l.tail with
    | none => none
    | some (n, rest) => some (-(n : Int), rest)
  else
    match parseDigits l with
    | none => none
    | some (n, rest) => some ((n : Int), rest)

/-- Full match of the body regex `\s*(-?\d+)\s*,\s*(-?\d+)\s*`
(`metrics_hub.py` line 66). -/
def parseCoordCore (s : List Char) : Option Cell :=
  match parseSignedInt (s.dropWhile isSpace) with
  | none => none
  | some (x, r1) =>
    match r1.dropWhile isSpace with
    | c :: r3 =>
      if c = ',' then
        match parseSignedInt (r3.dropWhile isSpace) with
        | none => none
        | some (y, r5) =>
          if (r5.dropWhile isSpace).isEmpty then some (x, y) else none
      else none
    | [] => none

/-- `parse_coord` (`metrics_hub.py` lines 61-69): strip, drop one trailing
hyphen (stripping again), then match `<int>,<int>`. -/
def parse_coord (payload : String) : Option Cell :=
  let s := stripChars payload.data
  let s2 := if s.getLast? = some '-' then stripChars s.dropLast else s
  parseCoordCore s2

/-- The four fixed robot identities (`ROBOT_IDS`). -/
def ROBOT_IDS : List String := ["00", "01", "02", "03"]

/-- The valid event-kind digits (`VALID_DIGITS`). -/
def VALID_DIGITS : List Char := ['1', '2', '3', '4', '5', '6']

/-- `parse_robot_topic` (`metrics_hub.py` lines 51-58): a valid robot topic is
exactly 3 characters, 2-char robot id in `ROBOT_IDS` then a digit in
`VALID_DIGITS`. -/
def parse_robot_topic (topic : String) : Option (String × Char) :=
  match topic.data with
  | [a, b, c] =>
    if String.mk [a, b] ∈ ROBOT_IDS ∧ c ∈ VALID_DIGITS then
      some (String.mk [a, b], c)
    else none
  | _ => none

/-! ### Trial state (from `metrics_hub.py` lines 125-157) -/

/-- Per-robot tracker state (`make_robot_state`, lines 125-134). -/
structure RobotState where
  last_pos : Option Cell
  steps_total : Nat
  steps_preclue : Nat
  steps_postclue : Nat
  visited : Finset Cell
  revisits : Nat
  msg_by_digit : Char → Nat

/-- `make_robot_state` (lines 125-134): the fresh per-robot tracker. -/
def make_robot_state : RobotState :=
  { last_pos := none
    steps_total := 0
    steps_preclue := 0
    steps_postclue := 0
    visited := ∅
    revisits := 0
    msg_by_digit := fun _ => 0 }

/-- The whole trial aggregator state: the variables local to `main`
(lines 141-157).  `team_visit_support` carries the key set of the
`team_visit_counts` dict; `team_visit_counts` its entries (0 for absent keys). -/
structure AggState where
  robots : String → RobotState
  team_visit_counts : Cell → Nat
  team_visit_support : Finset Cell
  t_first_clue : Option ℚ
  first_clue_loc : Option Cell
  pos_at_first_clue : Option (List (String × Option Cell))
  clue_locs : List Cell
  t_end : Option ℚ
  end_reporter : Option String
  end_loc_reported : Option Cell
  msg_total_system : Nat
  msg_total_by_digit : Char → Nat
  done : Bool

/-- Initial trial state (lines 141-157). -/
def initState : AggState :=
  { robots := fun _ => make_robot_state
    team_visit_counts := fun _ => 0
    team_visit_support := ∅
    t_first_clue := none
    first_clue_loc := none
    pos_at_first_clue := none
    clue_locs := []
    t_end := none
    end_reporter := none
    end_loc_reported := none
    msg_total_system := 0
    msg_total_by_digit := fun _ => 0
    done := false }

/-- `mark_team_visit` (lines 159-160): bump the team visit count for a cell. -/
def mark_team_visit (s : AggState) (cell : Cell) : AggState :=
  { s with
    team_visit_counts :=
      Function.update s.team_visit_counts cell (s.team_visit_counts cell + 1)
    team_visit_support := insert cell s.team_visit_support }

/-- `handle_position` (lines 162-195). -/
def handle_position (s : AggState) (rid : String) (cell : Cell) (t_rel : ℚ) :
    AggState :=
  let rs := s.robots rid
  match rs.last_pos with
  | none =>
    -- first placement: count starting cell as visited, no step
    let rs1 :=
      if cell ∈ rs.visited then
        { rs with last_pos := some cell, revisits := rs.revisits + 1 }
      else
        { rs with last_pos := some cell, visited := insert cell rs.visited }
    mark_team_visit { s with robots := Function.update s.robots rid rs1 } cell
  | some lp =>
    if cell = lp then s
    else
      -- step
      let rs1 := { rs with last_pos := some cell, steps_total := rs.steps_total + 1 }
      let rs2 :=
        match s.t_first_clue with
        | none => { rs1 with steps_preclue := rs1.steps_preclue + 1 }
        | some tfc =>
          if t_rel < tfc then { rs1 with steps_preclue := rs1.steps_preclue + 1 }
          else { rs1 with steps_postclue := rs1.steps_postclue + 1 }
      let rs3 :=
        if cell ∈ rs2.visited then { rs2 with revisits := rs2.revisits + 1 }
        else { rs2 with visited := insert cell rs2.visited }
      mark_team_visit { s with robots := Function.update s.robots rid rs3 } cell

/-- The snapshot `{r: robots[r]["last_pos"] for r in ROBOT_IDS}` (line 205). -/
def snapshot_positions (s : AggState) : List (String × Option Cell) :=
  ROBOT_IDS.map fun r => (r, (s.robots r).last_pos)

/-- `handle_clue` (lines 197-206). -/
def handle_clue (s : AggState) (rid : String) (cell : Cell) (t_rel : ℚ) :
    AggState :=
  let s1 := { s with clue_locs := s.clue_locs ++ [cell] }
  match s1.t_first_clue with
  | none =>
    { s1 with
      t_first_clue := some t_rel
      first_clue_loc := some cell
      pos_at_first_clue := some (snapshot_positions s1) }
  | some _ => s1

/-- `handle_target` (lines 208-216). -/
def handle_target (s : AggState) (rid : String) (cell : Cell) (t_rel : ℚ) :
    AggState :=
  match s.t_end with
  | some _ => s
  | none =>
    { s with
      t_end := some t_rel
      end_reporter := some rid
      end_loc_reported := some cell
      done := true }

/-! ### Message handling (`on_message`, lines 224-254) -/

/-- An inbound bus message: topic, payload, and the relative time at which it
is handled (`t_rel = now_s() - t0`, line 247). -/
structure Msg where
  topic : String
  payload : String
  t : ℚ

/-- The unconditional message counting of lines 235-237. -/
def count_msg (s : AggState) (rid : String) (dig : Char) : AggState :=
  let rs := s.robots rid
  { s with
    msg_total_system := s.msg_total_system + 1
    msg_total_by_digit :=
      Function.update s.msg_total_by_digit dig (s.msg_total_by_digit dig + 1)
    robots :=
      Function.update s.robots rid
        { rs with
          msg_by_digit := Function.update rs.msg_by_digit dig (rs.msg_by_digit dig + 1) } }

/-- `on_message` (lines 224-254): route the topic, count the message, parse the
coordinate for kinds 1/4/5, and dispatch to the handler. -/
def on_message (s : AggState) (m : Msg) : AggState :=
  match parse_robot_topic m.topic with
  | none => s  -- ignore hub/command and anything else
  | some (rid, dig) =>
    let s1 := count_msg s rid dig
    if dig = '1' ∨ dig = '4' ∨ dig = '5' then
      match parse_coord m.payload with
      | none => s1
      | some cell =>
        if dig = '1' then handle_position s1 rid cell m.t
        else if dig = '4' then handle_clue s1 rid cell m.t
        else if dig = '5' then handle_target s1 rid cell m.t
        else s1
    else s1  -- only counting msgs for 2/3/6

/-- Process a whole delivered message sequence from trial start. -/
def processMsgs (msgs : List Msg) : AggState :=
  msgs.foldl on_message initState

/-- A semantic trial event, as dispatched on lines 249-254: a Position, Clue or
Target report by a robot at a cell and relative time. -/
inductive Event where
  | position (rid : String) (cell : Cell) (t : ℚ)
  | clue (rid : String) (cell : Cell) (t : ℚ)
  | target (rid : String) (cell : Cell) (t : ℚ)

/-- The event dispatch of lines 249-254. -/
def processEvent (s : AggState) (e : Event) : AggState :=
  match e with
  | .position rid cell t => handle_position s rid cell t
  | .clue rid cell t => handle_clue s rid cell t
  | .target rid cell t => handle_target s rid cell t

/-- Process a semantic event sequence from trial start. -/
def processEvents (evs : List Event) : AggState :=
  evs.foldl processEvent initState

/-- Whether an event is a Target report. -/
def Event.isTarget : Event → Bool
  | .target _ _ _ => true
  | _ => false

/-- Whether an event is a Clue report. -/
def Event.isClue : Event → Bool
  | .clue _ _ _ => true
  | _ => false

/-- The cell of a Clue event, none otherwise. -/
def Event.clueCell : Event → Option Cell
  | .clue _ c _ => some c
  | _ => none

/-! ### Exporter derivations (lines 314-315) -/

/-- `uc = len(team_visit_counts)` (line 314). -/
def export_uc (s : AggState) : Nat := s.team_visit_support.card

/-- `rv = sum(max(0, c - 1) for c in team_visit_counts.values())` (line 315);
on naturals `max(0, c-1)` is truncated subtraction. -/
def export_rv (s : AggState) : Nat :=
  ∑ c ∈ s.team_visit_support, (s.team_visit_counts c - 1)

/-! ### Helper characterizations of the handlers -/

theorem foldl_inv {α σ : Type} {P : σ → Prop} {step : σ → α → σ}
    (hp : ∀ s a, P s → P (step s a)) :
    ∀ (l : List α) (s : σ), P s → P (l.foldl step s) := by
  intro l
  induction l with
  | nil => exact fun s h => h
  | cons a l ih => exact fun s h => ih _ (hp s a h)

/-- The robot-record update performed by the first-placement branch of
`handle_position`. -/
def place_robot (rs : RobotState) (cell : Cell) : RobotState :=
  if cell ∈ rs.visited then
    { rs with last_pos := some cell, revisits := rs.revisits + 1 }
  else
    { rs with last_pos := some cell, visited := insert cell rs.visited }

/-- The robot-record update performed by the step branch of `handle_position`. -/
def step_robot (rs : RobotState) (tfc : Option ℚ) (cell : Cell) (t_rel : ℚ) :
    RobotState :=
  let rs1 := { rs with last_pos := some cell, steps_total := rs.steps_total + 1 }
  let rs2 :=
    match tfc with
    | none => { rs1 with steps_preclue := rs1.steps_preclue + 1 }
    | some tfc =>
      if t_rel < tfc then { rs1 with steps_preclue := rs1.steps_preclue + 1 }
      else { rs1 with steps_postclue := rs1.steps_postclue + 1 }
  if cell ∈ rs2.visited then { rs2 with revisits := rs2.revisits + 1 }
  else { rs2 with visited := insert cell rs2.visited }

theorem handle_position_none (s : AggState) (rid : String) (cell : Cell) (t_rel : ℚ)
    (h : (s.robots rid).last_pos = none) :
    handle_position s rid cell t_rel =
      mark_team_visit
        { s with robots := Function.update s.robots rid (place_robot (s.robots rid) cell) }
        cell := by
  simp only [handle_position, place_robot, h]

theorem handle_position_same (s : AggState) (rid : String) (cell : Cell) (t_rel : ℚ)
    (h : (s.robots rid).last_pos = some cell) :
    handle_position s rid cell t_rel = s := by
  simp [handle_position, h]

theorem handle_position_step (s : AggState) (rid : String) (cell : Cell) (t_rel : ℚ)
    (a : Cell) (h : (s.robots rid).last_pos = some a) (hne : cell ≠ a) :
    handle_position s rid cell t_rel =
      mark_team_visit
        { s with robots :=
            Function.update s.robots rid (step_robot (s.robots rid) s.t_first_clue cell t_rel) }
        cell := by
  simp only [handle_position, step_robot, h, if_neg hne]

@[simp] theorem place_robot_last_pos (rs : RobotState) (cell : Cell) :
    (place_robot rs cell).last_pos = some cell := by
  unfold place_robot; split <;> rfl

@[simp] theorem place_robot_steps_total (rs : RobotState) (cell : Cell) :
    (place_robot rs cell).steps_total = rs.steps_total := by
  unfold place_robot; split <;> rfl

@[simp] theorem place_robot_steps_preclue (rs : RobotState) (cell : Cell) :
    (place_robot rs cell).steps_preclue = rs.steps_preclue := by
  unfold place_robot; split <;> rfl

@[simp] theorem place_robot_steps_postclue (rs : RobotState) (cell : Cell) :
    (place_robot rs cell).steps_postclue = rs.steps_postclue := by
  unfold place_robot; split <;> rfl

@[simp] theorem place_robot_msg_by_digit (rs : RobotState) (cell : Cell) :
    (place_robot rs cell).msg_by_digit = rs.msg_by_digit := by
  unfold place_robot; split <;> rfl

theorem place_robot_visited (rs : RobotState) (cell : Cell) :
    (place_robot rs cell).visited =
      if cell ∈ rs.visited then rs.visited else insert cell rs.visited := by
  unfold place_robot; split <;> simp_all

theorem place_robot_revisits (rs : RobotState) (cell : Cell) :
    (place_robot rs cell).revisits =
      if cell ∈ rs.visited then rs.revisits + 1 else rs.revisits := by
  unfold place_robot; split <;> simp_all

@[simp] theorem step_robot_last_pos (rs : RobotState) (tfc : Option ℚ) (cell : Cell)
    (t_rel : ℚ) : (step_robot rs tfc cell t_rel).last_pos = some cell := by
  rcases tfc with _ | tfc <;> simp only [step_robot] <;> split_ifs <;> rfl

@[simp] theorem step_robot_steps_total (rs : RobotState) (tfc : Option ℚ) (cell : Cell)
    (t_rel : ℚ) : (step_robot rs tfc cell t_rel).steps_total = rs.steps_total + 1 := by
  rcases tfc with _ | tfc <;> simp only [step_robot] <;> split_ifs <;> rfl

@[simp] theorem step_robot_msg_by_digit (rs : RobotState) (tfc : Option ℚ) (cell : Cell)
    (t_rel : ℚ) : (step_robot rs tfc cell t_rel).msg_by_digit = rs.msg_by_digit := by
  rcases tfc with _ | tfc <;> simp only [step_robot] <;> split_ifs <;> rfl

theorem step_robot_steps_split (rs : RobotState) (tfc : Option ℚ) (cell : Cell)
    (t_rel : ℚ) :
    (step_robot rs tfc cell t_rel).steps_preclue +
        (step_robot rs tfc cell t_rel).steps_postclue =
      rs.steps_preclue + rs.steps_postclue + 1 := by
  rcases tfc with _ | tfc <;> simp only [step_robot] <;> split_ifs <;> simp <;> omega

theorem step_robot_visited (rs : RobotState) (tfc : Option ℚ) (cell : Cell)
    (t_rel : ℚ) :
    (step_robot rs tfc cell t_rel).visited =
      if cell ∈ rs.visited then rs.visited else insert cell rs.visited := by
  rcases tfc with _ | tfc <;> simp only [step_robot] <;> split_ifs <;> simp_all

theorem step_robot_revisits (rs : RobotState) (tfc : Option ℚ) (cell : Cell)
    (t_rel : ℚ) :
    (step_robot rs tfc cell t_rel).revisits =
      if cell ∈ rs.visited then rs.revisits + 1 else rs.revisits := by
  rcases tfc with _ | tfc <;> simp only [step_robot] <;> split_ifs <;> simp_all

@[simp] theorem mark_team_visit_robots (s : AggState) (cell : Cell) :
    (mark_team_visit s cell).robots = s.robots := rfl

@[simp] theorem mark_team_visit_t_first_clue (s : AggState) (cell : Cell) :
    (mark_team_visit s cell).t_first_clue = s.t_first_clue := rfl

@[simp] theorem mark_team_visit_first_clue_loc (s : AggState) (cell : Cell) :
    (mark_team_visit s cell).first_clue_loc = s.first_clue_loc := rfl

@[simp] theorem mark_team_visit_pos_at_first_clue (s : AggState) (cell : Cell) :
    (mark_team_visit s cell).pos_at_first_clue = s.pos_at_first_clue := rfl

@[simp] theorem mark_team_visit_clue_locs (s : AggState) (cell : Cell) :
    (mark_team_visit s cell).clue_locs = s.clue_locs := rfl

@[simp] theorem mark_team_visit_t_end (s : AggState) (cell : Cell) :
    (mark_team_visit s cell).t_end = s.t_end := rfl

@[simp] theorem mark_team_visit_end_reporter (s : AggState) (cell : Cell) :
    (mark_team_visit s cell).end_reporter = s.end_reporter := rfl

@[simp] theorem mark_team_visit_end_loc_reported (s : AggState) (cell : Cell) :
    (mark_team_visit s cell).end_loc_reported = s.end_loc_reported := rfl

@[simp] theorem mark_team_visit_done (s : AggState) (cell : Cell) :
    (mark_team_visit s cell).done = s.done := rfl

@[simp] theorem mark_team_visit_msg_total_system (s : AggState) (cell : Cell) :
    (mark_team_visit s cell).msg_total_system = s.msg_total_system := rfl

@[simp] theorem mark_team_visit_msg_total_by_digit (s : AggState) (cell : Cell) :
    (mark_team_visit s cell).msg_total_by_digit = s.msg_total_by_digit := rfl

@[simp] theorem mark_team_visit_support (s : AggState) (cell : Cell) :
    (mark_team_visit s cell).team_visit_support = insert cell s.team_visit_support := rfl

theorem mark_team_visit_counts (s : AggState) (cell : Cell) :
    (mark_team_visit s cell).team_visit_counts =
      Function.update s.team_visit_counts cell (s.team_visit_counts cell + 1) := rfl

@[simp] theorem count_msg_t_first_clue (s : AggState) (rid : String) (dig : Char) :
    (count_msg s rid dig).t_first_clue = s.t_first_clue := rfl

@[simp] theorem count_msg_first_clue_loc (s : AggState) (rid : String) (dig : Char) :
    (count_msg s rid dig).first_clue_loc = s.first_clue_loc := rfl

@[simp] theorem count_msg_pos_at_first_clue (s : AggState) (rid : String) (dig : Char) :
    (count_msg s rid dig).pos_at_first_clue = s.pos_at_first_clue := rfl

@[simp] theorem count_msg_clue_locs (s : AggState) (rid : String) (dig : Char) :
    (count_msg s rid dig).clue_locs = s.clue_locs := rfl

@[simp] theorem count_msg_t_end (s : AggState) (rid : String) (dig : Char) :
    (count_msg s rid dig).t_end = s.t_end := rfl

@[simp] theorem count_msg_end_reporter (s : AggState) (rid : String) (dig : Char) :
    (count_msg s rid dig).end_reporter = s.end_reporter := rfl

@[simp] theorem count_msg_end_loc_reported (s : AggState) (rid : String) (dig : Char) :
    (count_msg s rid dig).end_loc_reported = s.end_loc_reported := rfl

@[simp] theorem count_msg_done (s : AggState) (rid : String) (dig : Char) :
    (count_msg s rid dig).done = s.done := rfl

@[simp] theorem count_msg_team_visit_counts (s : AggState) (rid : String) (dig : Char) :
    (count_msg s rid dig).team_visit_counts = s.team_visit_counts := rfl

@[simp] theorem count_msg_team_visit_support (s : AggState) (rid : String) (dig : Char) :
    (count_msg s rid dig).team_visit_support = s.team_visit_support := rfl

@[simp] theorem count_msg_msg_total_system (s : AggState) (rid : String) (dig : Char) :
    (count_msg s rid dig).msg_total_system = s.msg_total_system + 1 := rfl

/-- `count_msg` leaves every tracker field other than the message counters
unchanged, for every robot. -/
theorem count_msg_robot_fields (s : AggState) (rid : String) (dig : Char) (r : String) :
    ((count_msg s rid dig).robots r).last_pos = (s.robots r).last_pos ∧
    ((count_msg s rid dig).robots r).steps_total = (s.robots r).steps_total ∧
    ((count_msg s rid dig).robots r).steps_preclue = (s.robots r).steps_preclue ∧
    ((count_msg s rid dig).robots r).steps_postclue = (s.robots r).steps_postclue ∧
    ((count_msg s rid dig).robots r).visited = (s.robots r).visited ∧
    ((count_msg s rid dig).robots r).revisits = (s.robots r).revisits := by
  unfold count_msg
  by_cases h : r = rid <;> simp [Function.update_apply, h]

theorem handle_clue_none (s : AggState) (rid : String) (cell : Cell) (t_rel : ℚ)
    (h : s.t_first_clue = none) :
    handle_clue s rid cell t_rel =
      { s with
        clue_locs := s.clue_locs ++ [cell]
        t_first_clue := some t_rel
        first_clue_loc := some cell
        pos_at_first_clue := some (snapshot_positions s) } := by
  simp only [handle_clue, snapshot_positions, h]

theorem handle_clue_some (s : AggState) (rid : String) (cell : Cell) (t_rel : ℚ)
    (x : ℚ) (h : s.t_first_clue = some x) :
    handle_clue s rid cell t_rel = { s with clue_locs := s.clue_locs ++ [cell] } := by
  simp only [handle_clue, h]

theorem handle_target_none (s : AggState) (rid : String) (cell : Cell) (t_rel : ℚ)
    (h : s.t_end = none) :
    handle_target s rid cell t_rel =
      { s with
        t_end := some t_rel
        end_reporter := some rid
        end_loc_reported := some cell
        done := true } := by
  simp only [handle_target, h]

theorem handle_target_some (s : AggState) (rid : String) (cell : Cell) (t_rel : ℚ)
    (x : ℚ) (h : s.t_end = some x) :
    handle_target s rid cell t_rel = s := by
  simp only [handle_target, h]


/-! ### Frame lemmas for the handlers -/

@[simp] theorem processEvent_position (s : AggState) (r : String) (c : Cell) (t : ℚ) :
    processEvent s (Event.position r c t) = handle_position s r c t := rfl

@[simp] theorem processEvent_clue (s : AggState) (r : String) (c : Cell) (t : ℚ) :
    processEvent s (Event.clue r c t) = handle_clue s r c t := rfl

@[simp] theorem processEvent_target (s : AggState) (r : String) (c : Cell) (t : ℚ) :
    processEvent s (Event.target r c t) = handle_target s r c t := rfl

/-- `handle_position` touches only the robot map and the team visit state. -/
theorem handle_position_frame (s : AggState) (rid : String) (cell : Cell) (t_rel : ℚ) :
    (handle_position s rid cell t_rel).t_first_clue = s.t_first_clue ∧
    (handle_position s rid cell t_rel).first_clue_loc = s.first_clue_loc ∧
    (handle_position s rid cell t_rel).pos_at_first_clue = s.pos_at_first_clue ∧
    (handle_position s rid cell t_rel).clue_locs = s.clue_locs ∧
    (handle_position s rid cell t_rel).t_end = s.t_end ∧
    (handle_position s rid cell t_rel).end_reporter = s.end_reporter ∧
    (handle_position s rid cell t_rel).end_loc_reported = s.end_loc_reported ∧
    (handle_position s rid cell t_rel).done = s.done ∧
    (handle_position s rid cell t_rel).msg_total_system = s.msg_total_system ∧
    (handle_position s rid cell t_rel).msg_total_by_digit = s.msg_total_by_digit := by
  rcases hlp : (s.robots rid).last_pos with _ | a
  · rw [handle_position_none s rid cell t_rel hlp]; simp
  · by_cases hc : cell = a
    · subst hc; rw [handle_position_same s rid cell t_rel hlp]; simp
    · rw [handle_position_step s rid cell t_rel a hlp hc]; simp

/-- The per-robot message counters are untouched by `handle_position`. -/
theorem handle_position_msg_by_digit (s : AggState) (rid : String) (cell : Cell)
    (t_rel : ℚ) (r : String) :
    ((handle_position s rid cell t_rel).robots r).msg_by_digit =
      (s.robots r).msg_by_digit := by
  rcases hlp : (s.robots rid).last_pos with _ | a
  · rw [handle_position_none s rid cell t_rel hlp]
    by_cases h : r = rid <;> simp [Function.update_apply, h]
  · by_cases hc : cell = a
    · subst hc; rw [handle_position_same s rid cell t_rel hlp]
    · rw [handle_position_step s rid cell t_rel a hlp hc]
      by_cases h : r = rid <;> simp [Function.update_apply, h]

/-- `handle_clue` never touches the robot map. -/
theorem handle_clue_robots (s : AggState) (rid : String) (cell : Cell) (t_rel : ℚ) :
    (handle_clue s rid cell t_rel).robots = s.robots := by
  rcases hf : s.t_first_clue with _ | x
  · rw [handle_clue_none s rid cell t_rel hf]
  · rw [handle_clue_some s rid cell t_rel x hf]

/-- `handle_clue` touches only the clue state. -/
theorem handle_clue_frame (s : AggState) (rid : String) (cell : Cell) (t_rel : ℚ) :
    (handle_clue s rid cell t_rel).team_visit_counts = s.team_visit_counts ∧
    (handle_clue s rid cell t_rel).team_visit_support = s.team_visit_support ∧
    (handle_clue s rid cell t_rel).t_end = s.t_end ∧
    (handle_clue s rid cell t_rel).end_reporter = s.end_reporter ∧
    (handle_clue s rid cell t_rel).end_loc_reported = s.end_loc_reported ∧
    (handle_clue s rid cell t_rel).done = s.done ∧
    (handle_clue s rid cell t_rel).msg_total_system = s.msg_total_system ∧
    (handle_clue s rid cell t_rel).msg_total_by_digit = s.msg_total_by_digit := by
  rcases hf : s.t_first_clue with _ | x
  · rw [handle_clue_none s rid cell t_rel hf]; simp
  · rw [handle_clue_some s rid cell t_rel x hf]; simp

/-- `handle_target` never touches the robot map. -/
theorem handle_target_robots (s : AggState) (rid : String) (cell : Cell) (t_rel : ℚ) :
    (handle_target s rid cell t_rel).robots = s.robots := by
  rcases ht : s.t_end with _ | x
  · rw [handle_target_none s rid cell t_rel ht]
  · rw [handle_target_some s rid cell t_rel x ht]

/-- `handle_target` touches only the end state. -/
theorem handle_target_frame (s : AggState) (rid : String) (cell : Cell) (t_rel : ℚ) :
    (handle_target s rid cell t_rel).team_visit_counts = s.team_visit_counts ∧
    (handle_target s rid cell t_rel).team_visit_support = s.team_visit_support ∧
    (handle_target s rid cell t_rel).t_first_clue = s.t_first_clue ∧
    (handle_target s rid cell t_rel).first_clue_loc = s.first_clue_loc ∧
    (handle_target s rid cell t_rel).pos_at_first_clue = s.pos_at_first_clue ∧
    (handle_target s rid cell t_rel).clue_locs = s.clue_locs ∧
    (handle_target s rid cell t_rel).msg_total_system = s.msg_total_system ∧
    (handle_target s rid cell t_rel).msg_total_by_digit = s.msg_total_by_digit := by
  rcases ht : s.t_end with _ | x
  · rw [handle_target_none s rid cell t_rel ht]; simp
  · rw [handle_target_some s rid cell t_rel x ht]; simp

/-- Routing soundness: a decoded topic names one of the four fixed robots and a
valid digit. -/
theorem parse_robot_topic_sound (topic : String) (rid : String) (dig : Char)
    (h : parse_robot_topic topic = some (rid, dig)) :
    rid ∈ ROBOT_IDS ∧ dig ∈ VALID_DIGITS := by
  unfold parse_robot_topic at h
  split at h
  · split_ifs at h with hc
    · simp only [Option.some.injEq, Prod.mk.injEq] at h
      obtain ⟨rfl, rfl⟩ := h
      exact hc
  · cases h

/-- Case scheme: a property preserved by the counter bump and by each handler
(for known robots) is preserved by `on_message`. -/
theorem on_message_cases (P : AggState → Prop)
    (hcount : ∀ s rid dig, P s → P (count_msg s rid dig))
    (hpos : ∀ s rid cell t, rid ∈ ROBOT_IDS → P s → P (handle_position s rid cell t))
    (hclue : ∀ s rid cell t, rid ∈ ROBOT_IDS → P s → P (handle_clue s rid cell t))
    (htgt : ∀ s rid cell t, rid ∈ ROBOT_IDS → P s → P (handle_target s rid cell t)) :
    ∀ s m, P s → P (on_message s m) := by
  intro s m hP
  unfold on_message
  split
  · exact hP
  · next rid dig heq =>
    have hmem := (parse_robot_topic_sound m.topic rid dig heq).1
    have h1 : P (count_msg s rid dig) := hcount s rid dig hP
    split
    · split
      · exact h1
      · split_ifs
        · exact hpos _ rid _ m.t hmem h1
        · exact hclue _ rid _ m.t hmem h1
        · exact htgt _ rid _ m.t hmem h1
        · exact h1
    · exact h1

/-! ### End-state latching -/

/-- Position and Clue events never touch the end state. -/
theorem processEvent_nontarget_end (s : AggState) (e : Event) (h : e.isTarget = false) :
    (processEvent s e).t_end = s.t_end ∧
    (processEvent s e).end_reporter = s.end_reporter ∧
    (processEvent s e).end_loc_reported = s.end_loc_reported := by
  cases e with
  | position rid cell t =>
    exact ⟨(handle_position_frame s rid cell t).2.2.2.2.1,
           (handle_position_frame s rid cell t).2.2.2.2.2.1,
           (handle_position_frame s rid cell t).2.2.2.2.2.2.1⟩
  | clue rid cell t =>
    exact ⟨(handle_clue_frame s rid cell t).2.2.1,
           (handle_clue_frame s rid cell t).2.2.2.1,
           (handle_clue_frame s rid cell t).2.2.2.2.1⟩
  | target rid cell t => simp [Event.isTarget] at h

/-- Once the end state is latched, no event changes it. -/
theorem end_fields_stable (s : AggState) (e : Event) (x : ℚ) (h : s.t_end = some x) :
    (processEvent s e).t_end = s.t_end ∧
    (processEvent s e).end_reporter = s.end_reporter ∧
    (processEvent s e).end_loc_reported = s.end_loc_reported ∧
    (processEvent s e).done = s.done := by
  cases e with
  | position rid cell t =>
    exact ⟨(handle_position_frame s rid cell t).2.2.2.2.1,
           (handle_position_frame s rid cell t).2.2.2.2.2.1,
           (handle_position_frame s rid cell t).2.2.2.2.2.2.1,
           (handle_position_frame s rid cell t).2.2.2.2.2.2.2.1⟩
  | clue rid cell t =>
    exact ⟨(handle_clue_frame s rid cell t).2.2.1,
           (handle_clue_frame s rid cell t).2.2.2.1,
           (handle_clue_frame s rid cell t).2.2.2.2.1,
           (handle_clue_frame s rid cell t).2.2.2.2.2.1⟩
  | target rid cell t =>
    rw [processEvent_target, handle_target_some s rid cell t x h]
    exact ⟨rfl, rfl, rfl, rfl⟩

/-- Once the end state is latched, no event sequence changes it. -/
theorem end_fields_stable_fold (evs : List Event) :
    ∀ (s : AggState) (x : ℚ), s.t_end = some x →
    (evs.foldl processEvent s).t_end = some x ∧
    (evs.foldl processEvent s).end_reporter = s.end_reporter ∧
    (evs.foldl processEvent s).end_loc_reported = s.end_loc_reported := by
  induction evs with
  | nil => exact fun s x h => ⟨h, rfl, rfl⟩
  | cons e evs ih =>
    intro s x h
    have hs := end_fields_stable s e x h
    obtain ⟨h1, h2, h3⟩ := ih (processEvent s e) x (by rw [hs.1, h])
    exact ⟨h1, h2.trans hs.2.1, h3.trans hs.2.2.1⟩

/-- Before any Target event the end time is still unset. -/
theorem t_end_none_fold (evs : List Event) :
    ∀ (s : AggState), s.t_end = none → (∀ e ∈ evs, e.isTarget = false) →
    (evs.foldl processEvent s).t_end = none := by
  induction evs with
  | nil => exact fun s hs _ => hs
  | cons e evs ih =>
    intro s hs h
    have h1 := (processEvent_nontarget_end s e (h e (List.mem_cons_self e evs))).1
    exact ih (processEvent s e) (h1.trans hs) fun e' he' => h e' (List.mem_cons_of_mem _ he')

/-- C1: for every sequence of processed events, the first Target event latches
`t_end`, `end_reporter` and `end_loc_reported` to that event's time, robot and
cell, and every subsequent Target event (from any robot, at any cell) leaves
all three fields unchanged. -/
theorem target_latch_first_wins (pre post : List Event) (r : String) (c : Cell) (t : ℚ)
    (hpre : ∀ e ∈ pre, e.isTarget = false) :
    (processEvents (pre ++ Event.target r c t :: post)).t_end = some t ∧
    (processEvents (pre ++ Event.target r c t :: post)).end_reporter = some r ∧
    (processEvents (pre ++ Event.target r c t :: post)).end_loc_reported = some c := by
  unfold processEvents
  rw [List.foldl_append, List.foldl_cons]
  have hnone : (pre.foldl processEvent initState).t_end = none :=
    t_end_none_fold pre initState rfl hpre
  rw [processEvent_target, handle_target_none _ r c t hnone]
  obtain ⟨h1, h2, h3⟩ := end_fields_stable_fold post
    { pre.foldl processEvent initState with
        t_end := some t
        end_reporter := some r
        end_loc_reported := some c
        done := true } t rfl
  exact ⟨h1, h2, h3⟩

/-- Witness for C1: `Target("00",(1,1),t=5)` then `Target("01",(2,2),t=6)` ends
with reporter `"00"`, location `(1,1)`, time `5`. -/
theorem target_latch_first_wins_witness :
    (processEvents ([] ++ Event.target "00" (1, 1) 5 :: [Event.target "01" (2, 2) 6])).t_end = some 5 ∧
    (processEvents ([] ++ Event.target "00" (1, 1) 5 :: [Event.target "01" (2, 2) 6])).end_reporter = some "00" ∧
    (processEvents ([] ++ Event.target "00" (1, 1) 5 :: [Event.target "01" (2, 2) 6])).end_loc_reported = some (1, 1) :=
  target_latch_first_wins [] [Event.target "01" (2, 2) 6] "00" (1, 1) 5 (by simp)

/-- C3 counterexample: an event delivered after the first Target is still
processed and mutates tracker state — here a Position event for robot "01"
changes its `last_pos`. -/
theorem post_target_event_mutates_state :
    ((processEvents [Event.target "00" (1, 1) 5, Event.position "01" (2, 2) 6]).robots "01").last_pos ≠
      ((processEvents [Event.target "00" (1, 1) 5]).robots "01").last_pos := by
  decide

/-- C3 (amended): after the first Target event sets the trial-complete flag,
subsequent Target events are complete no-ops and no later event changes
`t_end`, `end_reporter`, `end_loc_reported` or the done flag; other aggregator
and tracker state may still be mutated by events processed before shutdown. -/
theorem end_state_frozen_after_completion (s : AggState) (e : Event) (x : ℚ)
    (h : s.t_end = some x) :
    (processEvent s e).t_end = s.t_end ∧
    (processEvent s e).end_reporter = s.end_reporter ∧
    (processEvent s e).end_loc_reported = s.end_loc_reported ∧
    (processEvent s e).done = s.done ∧
    (e.isTarget = true → processEvent s e = s) := by
  refine ⟨(end_fields_stable s e x h).1, (end_fields_stable s e x h).2.1,
          (end_fields_stable s e x h).2.2.1, (end_fields_stable s e x h).2.2.2, ?_⟩
  intro ht
  cases e with
  | position rid cell t => simp [Event.isTarget] at ht
  | clue rid cell t => simp [Event.isTarget] at ht
  | target rid cell t => exact handle_target_some s rid cell t x h

/-- Witness for the amended C3: a second Target event is a complete no-op. -/
theorem end_state_frozen_after_completion_witness :
    processEvent (processEvents [Event.target "00" (1, 1) 5]) (Event.target "01" (2, 2) 6)
      = processEvents [Event.target "00" (1, 1) 5] :=
  (end_state_frozen_after_completion _ _ 5 (by decide)).2.2.2.2 (by decide)

/-- C4: a Position event repeating the robot's current `last_pos` changes
nothing at all: the whole aggregator state is unchanged. -/
theorem position_same_cell_noop (s : AggState) (r : String) (c : Cell) (t : ℚ)
    (h : (s.robots r).last_pos = some c) :
    processEvent s (Event.position r c t) = s :=
  handle_position_same s r c t h

/-- Witness for C4 at a concrete state. -/
theorem position_same_cell_noop_witness :
    processEvent (processEvents [Event.position "00" (3, 4) 0]) (Event.position "00" (3, 4) 2)
      = processEvents [Event.position "00" (3, 4) 0] :=
  position_same_cell_noop _ "00" (3, 4) 2 (by decide)

/-! ### Per-robot tracker invariants -/

/-- The steps-split equation is preserved by every delivered message. -/
theorem steps_split_pres (s : AggState) (m : Msg)
    (hP : ∀ r, (s.robots r).steps_total =
      (s.robots r).steps_preclue + (s.robots r).steps_postclue) :
    ∀ r, ((on_message s m).robots r).steps_total =
      ((on_message s m).robots r).steps_preclue +
        ((on_message s m).robots r).steps_postclue := by
  refine on_message_cases
    (fun s => ∀ r, (s.robots r).steps_total =
      (s.robots r).steps_preclue + (s.robots r).steps_postclue)
    ?_ ?_ ?_ ?_ s m hP
  · intro s rid dig h r
    obtain ⟨-, h1, h2, h3, -, -⟩ := count_msg_robot_fields s rid dig r
    rw [h1, h2, h3]; exact h r
  · intro s rid cell t _ h r
    rcases hlp : (s.robots rid).last_pos with _ | a
    · rw [handle_position_none s rid cell t hlp]
      by_cases hr : r = rid <;>
        simp [Function.update_apply, hr] <;> exact h _
    · by_cases hc : cell = a
      · subst hc; rw [handle_position_same s rid cell t hlp]; exact h r
      · rw [handle_position_step s rid cell t a hlp hc]
        by_cases hr : r = rid
        · subst hr
          simp only [mark_team_visit_robots, Function.update_same,
            step_robot_steps_total]
          have h2 := step_robot_steps_split (s.robots r) s.t_first_clue cell t
          have h3 := h r
          omega
        · simp [Function.update_apply, hr]; exact h r
  · intro s rid cell t _ h r
    rw [handle_clue_robots]; exact h r
  · intro s rid cell t _ h r
    rw [handle_target_robots]; exact h r

/-- C2: for every robot and after every delivered message sequence,
`steps_total = steps_preclue + steps_postclue`. -/
theorem steps_split_invariant (msgs : List Msg) (r : String) :
    ((processMsgs msgs).robots r).steps_total =
      ((processMsgs msgs).robots r).steps_preclue +
        ((processMsgs msgs).robots r).steps_postclue :=
  foldl_inv steps_split_pres msgs initState (fun _ => rfl) r

/-- The C10 shape invariant of a single tracker. -/
def tracker_ok (rs : RobotState) : Prop :=
  (rs.last_pos = none → rs.visited = ∅ ∧ rs.steps_total = 0 ∧ rs.revisits = 0) ∧
  (rs.last_pos ≠ none → rs.visited.card + rs.revisits = rs.steps_total + 1)

/-- The tracker shape invariant is preserved by every delivered message. -/
theorem tracker_ok_pres (s : AggState) (m : Msg)
    (hP : ∀ r, tracker_ok (s.robots r)) :
    ∀ r, tracker_ok ((on_message s m).robots r) := by
  refine on_message_cases (fun s => ∀ r, tracker_ok (s.robots r)) ?_ ?_ ?_ ?_ s m hP
  · intro s rid dig h r
    obtain ⟨h1, h2, -, -, h5, h6⟩ := count_msg_robot_fields s rid dig r
    unfold tracker_ok at h ⊢
    rw [h1, h2, h5, h6]
    exact ⟨fun hn => ⟨((h r).1 hn).1, ((h r).1 hn).2.1, ((h r).1 hn).2.2⟩, (h r).2⟩
  · intro s rid cell t _ h r
    rcases hlp : (s.robots rid).last_pos with _ | a
    · rw [handle_position_none s rid cell t hlp]
      by_cases hr : r = rid
      · subst hr
        obtain ⟨hv, hs, hrev⟩ := (h r).1 hlp
        simp only [mark_team_visit_robots, Function.update_same]
        constructor
        · intro hn; rw [place_robot_last_pos] at hn; cases hn
        · intro _
          rw [place_robot_visited, place_robot_revisits, place_robot_steps_total,
            hv, hs, hrev]
          simp
      · simp only [mark_team_visit_robots, Function.update_noteq hr]
        exact h r
    · by_cases hc : cell = a
      · subst hc; rw [handle_position_same s rid cell t hlp]; exact h r
      · rw [handle_position_step s rid cell t a hlp hc]
        by_cases hr : r = rid
        · subst hr
          have hcard := (h r).2 (by rw [hlp]; exact Option.noConfusion)
          simp only [mark_team_visit_robots, Function.update_same]
          constructor
          · intro hn; rw [step_robot_last_pos] at hn; cases hn
          · intro _
            rw [step_robot_visited, step_robot_revisits, step_robot_steps_total]
            by_cases hmem : cell ∈ (s.robots r).visited
            · rw [if_pos hmem, if_pos hmem]; omega
            · rw [if_neg hmem, if_neg hmem, Finset.card_insert_of_not_mem hmem]
              omega
        · simp only [mark_team_visit_robots, Function.update_noteq hr]
          exact h r
  · intro s rid cell t _ h r
    rw [handle_clue_robots]; exact h r
  · intro s rid cell t _ h r
    rw [handle_target_robots]; exact h r

/-- C10: a robot's `last_pos` is unset exactly when its tracker is fresh, and
once set, `|visited| + revisits = steps_total + 1`. -/
theorem tracker_consistency_invariant (msgs : List Msg) (r : String) :
    (((processMsgs msgs).robots r).last_pos = none ↔
      ((processMsgs msgs).robots r).visited = ∅ ∧
      ((processMsgs msgs).robots r).steps_total = 0 ∧
      ((processMsgs msgs).robots r).revisits = 0) ∧
    ∀ c : Cell, ((processMsgs msgs).robots r).last_pos = some c →
      ((processMsgs msgs).robots r).visited.card + ((processMsgs msgs).robots r).revisits =
        ((processMsgs msgs).robots r).steps_total + 1 := by
  unfold processMsgs
  have hinv := foldl_inv tracker_ok_pres msgs initState
    (fun _ => ⟨fun _ => ⟨rfl, rfl, rfl⟩, fun hn => absurd rfl hn⟩) r
  refine ⟨⟨hinv.1, ?_⟩, fun c hc => hinv.2 (by rw [hc]; exact Option.noConfusion)⟩
  rintro ⟨hv, hs, hrev⟩
  by_contra hlp
  have := hinv.2 hlp
  rw [hv, hs, hrev] at this
  simp at this

/-- Witness for C10 at a concrete message sequence. -/
theorem tracker_consistency_invariant_witness :
    ((processMsgs [⟨"001", "1,2", 0⟩]).robots "00").visited.card +
        ((processMsgs [⟨"001", "1,2", 0⟩]).robots "00").revisits =
      ((processMsgs [⟨"001", "1,2", 0⟩]).robots "00").steps_total + 1 :=
  (tracker_consistency_invariant [⟨"001", "1,2", 0⟩] "00").2 (1, 2) (by decide)

/-! ### Step counting along a path -/

/-- Along a chain of pairwise-distinct consecutive cells, each Position event
after the first contributes exactly one step. -/
theorem steps_fold_chain (r : String) :
    ∀ (rest : List (Cell × ℚ)) (s : AggState) (a : Cell),
      (s.robots r).last_pos = some a →
      List.Chain (fun x y : Cell => x ≠ y) a (rest.map Prod.fst) →
      (((rest.map fun mv => Event.position r mv.1 mv.2).foldl processEvent s).robots r).steps_total
        = (s.robots r).steps_total + rest.length := by
  intro rest
  induction rest with
  | nil => intro s a h _; simp
  | cons mv rest ih =>
    intro s a hlp hchain
    rw [List.map_cons] at hchain
    cases hchain with
    | cons hne hchain =>
      rw [List.map_cons, List.foldl_cons, processEvent_position,
        handle_position_step s r mv.1 mv.2 a hlp (Ne.symm hne)]
      have h := ih
        (mark_team_visit
          { s with robots :=
              Function.update s.robots r (step_robot (s.robots r) s.t_first_clue mv.1 mv.2) }
          mv.1)
        mv.1 (by simp) hchain
      rw [h]
      simp
      omega

/-- C5: for a single robot, a non-empty sequence of Position events with no two
consecutive equal cells yields `steps_total = n - 1`; the first placement sets
`last_pos` and `visited` but contributes no step. -/
theorem distinct_moves_step_count (r : String) (moves : List (Cell × ℚ))
    (hne : moves ≠ [])
    (hchain : List.Chain' (fun x y : Cell => x ≠ y) (moves.map Prod.fst)) :
    ((processEvents (moves.map fun mv => Event.position r mv.1 mv.2)).robots r).steps_total
      = moves.length - 1 ∧
    ∀ (c : Cell) (t : ℚ),
      ((processEvent initState (Event.position r c t)).robots r).last_pos = some c ∧
      c ∈ ((processEvent initState (Event.position r c t)).robots r).visited ∧
      ((processEvent initState (Event.position r c t)).robots r).steps_total = 0 := by
  constructor
  · rcases moves with _ | ⟨m0, rest⟩
    · exact absurd rfl hne
    · unfold processEvents
      rw [List.map_cons] at hchain
      rw [List.map_cons, List.foldl_cons, processEvent_position,
        handle_position_none initState r m0.1 m0.2 rfl]
      have h := steps_fold_chain r rest
        (mark_team_visit
          { initState with robots :=
              Function.update initState.robots r (place_robot (initState.robots r) m0.1) }
          m0.1)
        m0.1 (by simp) hchain
      rw [h]
      simp [initState, make_robot_state]
  · intro c t
    rw [processEvent_position, handle_position_none initState r c t rfl]
    refine ⟨by simp, ?_, by simp [initState, make_robot_state]⟩
    simp only [mark_team_visit_robots, Function.update_same, place_robot_visited]
    have : c ∉ (initState.robots r).visited := by
      simp [initState, make_robot_state]
    rw [if_neg this]
    exact Finset.mem_insert_self c _

/-- Witness for C5: three moves along distinct cells give two steps. -/
theorem distinct_moves_step_count_witness :
    ((processEvents ([((0, 0), (0 : ℚ)), ((0, 1), 2), ((0, 2), 4)].map
        fun mv => Event.position "00" mv.1 mv.2)).robots "00").steps_total
      = [((0, 0), (0 : ℚ)), ((0, 1), 2), ((0, 2), 4)].length - 1 :=
  (distinct_moves_step_count "00" [((0, 0), (0 : ℚ)), ((0, 1), 2), ((0, 2), 4)]
    (by simp)
    (List.chain'_cons.mpr ⟨by decide, List.chain'_cons.mpr ⟨by decide, List.chain'_singleton _⟩⟩)).1

/-! ### Clue latching -/

/-- Every event appends exactly its clue cell (if any) to `clue_locs`. -/
theorem processEvent_clue_locs (s : AggState) (e : Event) :
    (processEvent s e).clue_locs = s.clue_locs ++ (Event.clueCell e).toList := by
  cases e with
  | position rid cell t =>
    rw [processEvent_position, (handle_position_frame s rid cell t).2.2.2.1]
    simp [Event.clueCell]
  | clue rid cell t =>
    rcases hf : s.t_first_clue with _ | x
    · rw [processEvent_clue, handle_clue_none s rid cell t hf]; simp [Event.clueCell]
    · rw [processEvent_clue, handle_clue_some s rid cell t x hf]; simp [Event.clueCell]
  | target rid cell t =>
    rw [processEvent_target, (handle_target_frame s rid cell t).2.2.2.2.2.1]
    simp [Event.clueCell]

/-- `clue_locs` accumulates the clue cells of a sequence in arrival order. -/
theorem clue_locs_fold (evs : List Event) :
    ∀ s : AggState,
      (evs.foldl processEvent s).clue_locs = s.clue_locs ++ evs.filterMap Event.clueCell := by
  induction evs with
  | nil => simp
  | cons e evs ih =>
    intro s
    rw [List.foldl_cons, ih, processEvent_clue_locs, List.filterMap_cons]
    cases hc : e.clueCell <;> simp

/-- Non-clue events do not touch the first-clue latch. -/
theorem processEvent_nonclue_first (s : AggState) (e : Event) (h : e.isClue = false) :
    (processEvent s e).t_first_clue = s.t_first_clue := by
  cases e with
  | position rid cell t => exact (handle_position_frame s rid cell t).1
  | clue rid cell t => simp [Event.isClue] at h
  | target rid cell t => exact (handle_target_frame s rid cell t).2.2.1

/-- Before any Clue event the first-clue latch is still unset. -/
theorem t_first_clue_none_fold (evs : List Event) :
    ∀ s : AggState, s.t_first_clue = none → (∀ e ∈ evs, e.isClue = false) →
      (evs.foldl processEvent s).t_first_clue = none := by
  induction evs with
  | nil => exact fun s hs _ => hs
  | cons e evs ih =>
    intro s hs h
    have h1 := processEvent_nonclue_first s e (h e (List.mem_cons_self e evs))
    exact ih (processEvent s e) (h1.trans hs) fun e' he' => h e' (List.mem_cons_of_mem _ he')

/-- Once the first-clue latch is set, no event changes it. -/
theorem clue_fields_stable (s : AggState) (e : Event) (x : ℚ)
    (h : s.t_first_clue = some x) :
    (processEvent s e).t_first_clue = s.t_first_clue ∧
    (processEvent s e).first_clue_loc = s.first_clue_loc ∧
    (processEvent s e).pos_at_first_clue = s.pos_at_first_clue := by
  cases e with
  | position rid cell t =>
    exact ⟨(handle_position_frame s rid cell t).1, (handle_position_frame s rid cell t).2.1,
           (handle_position_frame s rid cell t).2.2.1⟩
  | clue rid cell t =>
    rw [processEvent_clue, handle_clue_some s rid cell t x h]
    exact ⟨rfl, rfl, rfl⟩
  | target rid cell t =>
    exact ⟨(handle_target_frame s rid cell t).2.2.1, (handle_target_frame s rid cell t).2.2.2.1,
           (handle_target_frame s rid cell t).2.2.2.2.1⟩

/-- Once the first-clue latch is set, no event sequence changes it. -/
theorem clue_fields_stable_fold (evs : List Event) :
    ∀ (s : AggState) (x : ℚ), s.t_first_clue = some x →
      (evs.foldl processEvent s).t_first_clue = some x ∧
      (evs.foldl processEvent s).first_clue_loc = s.first_clue_loc ∧
      (evs.foldl processEvent s).pos_at_first_clue = s.pos_at_first_clue := by
  induction evs with
  | nil => exact fun s x h => ⟨h, rfl, rfl⟩
  | cons e evs ih =>
    intro s x h
    have hs := clue_fields_stable s e x h
    obtain ⟨h1, h2, h3⟩ := ih (processEvent s e) x (by rw [hs.1, h])
    exact ⟨h1, h2.trans hs.2.1, h3.trans hs.2.2⟩

/-- C8: every Clue event appends its cell to `clue_locs` in arrival order, and
only the first Clue event latches `t_first_clue`, `first_clue_loc` and the
snapshot of all robots' current positions; later Clue events never re-latch. -/
theorem clue_latch_and_order (pre post : List Event) (r : String) (c : Cell) (t : ℚ)
    (hpre : ∀ e ∈ pre, e.isClue = false) :
    (processEvents (pre ++ Event.clue r c t :: post)).clue_locs
      = (pre ++ Event.clue r c t :: post).filterMap Event.clueCell ∧
    (processEvents (pre ++ Event.clue r c t :: post)).t_first_clue = some t ∧
    (processEvents (pre ++ Event.clue r c t :: post)).first_clue_loc = some c ∧
    (processEvents (pre ++ Event.clue r c t :: post)).pos_at_first_clue
      = some (snapshot_positions (pre.foldl processEvent initState)) := by
  refine ⟨?_, ?_⟩
  · unfold processEvents
    rw [clue_locs_fold]
    rfl
  · unfold processEvents
    rw [List.foldl_append, List.foldl_cons, processEvent_clue,
      handle_clue_none _ r c t (t_first_clue_none_fold pre initState rfl hpre)]
    obtain ⟨h1, h2, h3⟩ := clue_fields_stable_fold post
      { pre.foldl processEvent initState with
          clue_locs := (pre.foldl processEvent initState).clue_locs ++ [c]
          t_first_clue := some t
          first_clue_loc := some c
          pos_at_first_clue :=
            some (snapshot_positions (pre.foldl processEvent initState)) } t rfl
    exact ⟨h1, h2, h3⟩

/-- Witness for C8: a Position, then the first Clue, then a later Clue. -/
theorem clue_latch_and_order_witness :
    (processEvents ([Event.position "00" (0, 0) 1] ++ Event.clue "01" (3, 3) 3 ::
        [Event.clue "02" (9, 9) 7])).clue_locs
      = ([Event.position "00" (0, 0) 1] ++ Event.clue "01" (3, 3) 3 ::
        [Event.clue "02" (9, 9) 7]).filterMap Event.clueCell ∧
    (processEvents ([Event.position "00" (0, 0) 1] ++ Event.clue "01" (3, 3) 3 ::
        [Event.clue "02" (9, 9) 7])).t_first_clue = some 3 ∧
    (processEvents ([Event.position "00" (0, 0) 1] ++ Event.clue "01" (3, 3) 3 ::
        [Event.clue "02" (9, 9) 7])).first_clue_loc = some (3, 3) ∧
    (processEvents ([Event.position "00" (0, 0) 1] ++ Event.clue "01" (3, 3) 3 ::
        [Event.clue "02" (9, 9) 7])).pos_at_first_clue
      = some (snapshot_positions ([Event.position "00" (0, 0) 1].foldl processEvent initState)) :=
  clue_latch_and_order [Event.position "00" (0, 0) 1] [Event.clue "02" (9, 9) 7]
    "01" (3, 3) 3 (by simp [Event.isClue])

/-! ### Message counting -/

/-- On a decoded robot topic, `on_message` counts the message and dispatches. -/
theorem on_message_some (s : AggState) (m : Msg) (rid : String) (dig : Char)
    (h : parse_robot_topic m.topic = some (rid, dig)) :
    on_message s m =
      if dig = '1' ∨ dig = '4' ∨ dig = '5' then
        match parse_coord m.payload with
        | none => count_msg s rid dig
        | some cell =>
          if dig = '1' then handle_position (count_msg s rid dig) rid cell m.t
          else if dig = '4' then handle_clue (count_msg s rid dig) rid cell m.t
          else if dig = '5' then handle_target (count_msg s rid dig) rid cell m.t
          else count_msg s rid dig
      else count_msg s rid dig := by
  unfold on_message
  rw [h]

/-- C7: every message whose topic decodes to a known robot/digit pair bumps the
team total, the team per-digit counter, and that robot's per-digit counter by
one, whatever the payload. -/
theorem message_counting_unconditional (s : AggState) (m : Msg) (rid : String) (dig : Char)
    (h : parse_robot_topic m.topic = some (rid, dig)) :
    (on_message s m).msg_total_system = s.msg_total_system + 1 ∧
    (on_message s m).msg_total_by_digit dig = s.msg_total_by_digit dig + 1 ∧
    ((on_message s m).robots rid).msg_by_digit dig = (s.robots rid).msg_by_digit dig + 1 := by
  have base : (count_msg s rid dig).msg_total_system = s.msg_total_system + 1 ∧
      (count_msg s rid dig).msg_total_by_digit dig = s.msg_total_by_digit dig + 1 ∧
      ((count_msg s rid dig).robots rid).msg_by_digit dig = (s.robots rid).msg_by_digit dig + 1 :=
    ⟨rfl, by simp [count_msg], by simp [count_msg]⟩
  rw [on_message_some s m rid dig h]
  split
  · split
    · exact base
    · next cell heq =>
      split_ifs
      · exact ⟨((handle_position_frame _ rid cell m.t).2.2.2.2.2.2.2.2.1).trans base.1,
          by rw [(handle_position_frame _ rid cell m.t).2.2.2.2.2.2.2.2.2]; exact base.2.1,
          by rw [handle_position_msg_by_digit]; exact base.2.2⟩
      · exact ⟨((handle_clue_frame _ rid cell m.t).2.2.2.2.2.2.1).trans base.1,
          by rw [(handle_clue_frame _ rid cell m.t).2.2.2.2.2.2.2]; exact base.2.1,
          by rw [handle_clue_robots]; exact base.2.2⟩
      · exact ⟨((handle_target_frame _ rid cell m.t).2.2.2.2.2.2.1).trans base.1,
          by rw [(handle_target_frame _ rid cell m.t).2.2.2.2.2.2.2]; exact base.2.1,
          by rw [handle_target_robots]; exact base.2.2⟩
      · exact base
  · exact base

/-- Witness for C7: topic "021" with unparseable payload "abc" still counts. -/
theorem message_counting_unconditional_witness :
    (on_message initState ⟨"021", "abc", 0⟩).msg_total_system = initState.msg_total_system + 1 ∧
    (on_message initState ⟨"021", "abc", 0⟩).msg_total_by_digit '1' =
      initState.msg_total_by_digit '1' + 1 ∧
    ((on_message initState ⟨"021", "abc", 0⟩).robots "02").msg_by_digit '1' =
      (initState.robots "02").msg_by_digit '1' + 1 :=
  message_counting_unconditional initState ⟨"021", "abc", 0⟩ "02" '1' (by decide)

/-! ### Team coverage -/

/-- Replacing one tracker without changing its visited set keeps the team union. -/
theorem biUnion_update_same (robots : String → RobotState) (rid : String)
    (rs' : RobotState) (hv : rs'.visited = (robots rid).visited) (ids : Finset String) :
    ids.biUnion (fun r => ((Function.update robots rid rs') r).visited)
      = ids.biUnion fun r => (robots r).visited :=
  Finset.biUnion_congr rfl fun r _ => by
    by_cases h : r = rid <;> simp [Function.update_apply, h, hv]

/-- Replacing one tracker by inserting a cell into its visited set inserts the
cell into the team union. -/
theorem biUnion_update_insert (robots : String → RobotState) (rid : String)
    (rs' : RobotState) (cell : Cell) (hv : rs'.visited = insert cell (robots rid).visited)
    (ids : Finset String) (hrid : rid ∈ ids) :
    ids.biUnion (fun r => ((Function.update robots rid rs') r).visited)
      = insert cell (ids.biUnion fun r => (robots r).visited) := by
  ext x
  simp only [Finset.mem_biUnion, Finset.mem_insert, Function.update_apply]
  constructor
  · rintro ⟨r, hr, hx⟩
    by_cases h : r = rid
    · rw [if_pos h, hv, Finset.mem_insert] at hx
      rcases hx with rfl | hx
      · exact Or.inl rfl
      · exact Or.inr ⟨rid, hrid, hx⟩
    · rw [if_neg h] at hx
      exact Or.inr ⟨r, hr, hx⟩
  · rintro (rfl | ⟨r, hr, hx⟩)
    · exact ⟨rid, hrid, by rw [if_pos rfl, hv]; exact Finset.mem_insert_self _ _⟩
    · by_cases h : r = rid
      · subst h
        exact ⟨r, hr, by rw [if_pos rfl, hv]; exact Finset.mem_insert_of_mem hx⟩
      · exact ⟨r, hr, by rw [if_neg h]; exact hx⟩

/-- The key set of the team visit dict equals the union of all robots' visited
sets, and this is preserved by every delivered message. -/
theorem support_eq_union_pres (s : AggState) (m : Msg)
    (hP : s.team_visit_support = ROBOT_IDS.toFinset.biUnion fun r => (s.robots r).visited) :
    (on_message s m).team_visit_support
      = ROBOT_IDS.toFinset.biUnion fun r => ((on_message s m).robots r).visited := by
  refine on_message_cases
    (fun s => s.team_visit_support = ROBOT_IDS.toFinset.biUnion fun r => (s.robots r).visited)
    ?_ ?_ ?_ ?_ s m hP
  · intro s rid dig h
    rw [count_msg_team_visit_support, h]
    exact Finset.biUnion_congr rfl fun r _ =>
      ((count_msg_robot_fields s rid dig r).2.2.2.2.1).symm
  · intro s rid cell t hrid h
    have hmem : rid ∈ ROBOT_IDS.toFinset := List.mem_toFinset.mpr hrid
    rcases hlp : (s.robots rid).last_pos with _ | a
    · rw [handle_position_none s rid cell t hlp]
      simp only [mark_team_visit_support, mark_team_visit_robots]
      by_cases hc : cell ∈ (s.robots rid).visited
      · rw [biUnion_update_same _ _ _ (by rw [place_robot_visited, if_pos hc]) _, ← h]
        exact Finset.insert_eq_self.mpr
          (by rw [h]; exact Finset.mem_biUnion.mpr ⟨rid, hmem, hc⟩)
      · rw [biUnion_update_insert _ _ _ cell (by rw [place_robot_visited, if_neg hc]) _ hmem, ← h]
    · by_cases hcell : cell = a
      · subst hcell; rw [handle_position_same s rid cell t hlp]; exact h
      · rw [handle_position_step s rid cell t a hlp hcell]
        simp only [mark_team_visit_support, mark_team_visit_robots]
        by_cases hc : cell ∈ (s.robots rid).visited
        · rw [biUnion_update_same _ _ _ (by rw [step_robot_visited, if_pos hc]) _, ← h]
          exact Finset.insert_eq_self.mpr
            (by rw [h]; exact Finset.mem_biUnion.mpr ⟨rid, hmem, hc⟩)
        · rw [biUnion_update_insert _ _ _ cell (by rw [step_robot_visited, if_neg hc]) _ hmem, ← h]
  · intro s rid cell t _ h
    rw [handle_clue_robots, (handle_clue_frame s rid cell t).2.1, h]
  · intro s rid cell t _ h
    rw [handle_target_robots, (handle_target_frame s rid cell t).2.1, h]

/-- C6: the exported `uc` equals the number of distinct cells visited by any
robot, and the exported `rv` equals the sum of `count - 1` over the cells
visited more than once. -/
theorem coverage_export_correct (msgs : List Msg) :
    export_uc (processMsgs msgs)
      = (ROBOT_IDS.toFinset.biUnion fun r => ((processMsgs msgs).robots r).visited).card ∧
    export_rv (processMsgs msgs)
      = ∑ c ∈ (processMsgs msgs).team_visit_support.filter
          (fun c => 1 < (processMsgs msgs).team_visit_counts c),
          ((processMsgs msgs).team_visit_counts c - 1) := by
  constructor
  · unfold processMsgs export_uc
    rw [foldl_inv support_eq_union_pres msgs initState
      (by ext x; simp [initState, make_robot_state])]
  · rw [export_rv]
    symm
    apply Finset.sum_filter_of_ne
    intro x hx hne
    omega

/-! ### The coordinate-parser contract (C9) -/

/-- A (possibly empty) run of whitespace. -/
def allSpace (l : List Char) : Prop := ∀ c ∈ l, isSpace c = true

/-- A non-empty run of decimal digits. -/
def digitsOnly (l : List Char) : Prop := l ≠ [] ∧ ∀ c ∈ l, c.isDigit = true

/-- Standard decimal value of a digit run, most significant digit first. -/
def decimalVal (l : List Char) : ℕ := Nat.ofDigits 10 (l.map digitVal).reverse

/-- Modelled from the spec: an `<integer>` token — an optional leading minus
sign followed by digits — together with its value. -/
def intTokenVal (l : List Char) (v : Int) : Prop :=
  (digitsOnly l ∧ v = decimalVal l) ∨
  (∃ d, l = '-' :: d ∧ digitsOnly d ∧ v = -(decimalVal d : Int))

/-- Modelled from the spec: the text matches `<integer>,<integer>` with
optional surrounding whitespace and optional leading minus signs, the two
integers having values `x` and `y`. -/
def coordSpecMatch (s : List Char) (x y : Int) : Prop :=
  ∃ w1 t1 w2 w3 t2 w4,
    s = w1 ++ t1 ++ w2 ++ ',' :: (w3 ++ t2 ++ w4) ∧
    allSpace w1 ∧ allSpace w2 ∧ allSpace w3 ∧ allSpace w4 ∧
    intTokenVal t1 x ∧ intTokenVal t2 y

/-- No leading digit. -/
def noDigitHead (l : List Char) : Prop :=
  ∀ c, l.head? = some c → c.isDigit = false

/-- A digit is not whitespace. -/
theorem not_space_of_digit (c : Char) (h : c.isDigit = true) : isSpace c = false := by
  unfold isSpace
  by_contra hb
  rw [Bool.not_eq_false] at hb
  simp only [Bool.or_eq_true, decide_eq_true_eq] at hb
  rcases hb with ((((rfl | rfl) | rfl) | rfl) | rfl) | rfl <;> exact absurd h (by decide)

/-- Whitespace is not a digit. -/
theorem not_digit_of_space (c : Char) (h : isSpace c = true) : c.isDigit = false := by
  unfold isSpace at h
  simp only [Bool.or_eq_true, decide_eq_true_eq] at h
  rcases h with ((((rfl | rfl) | rfl) | rfl) | rfl) | rfl <;> decide

/-- The head of a `dropWhile` result fails the predicate. -/
theorem head_dropWhile_not (p : Char → Bool) (l : List Char) :
    ∀ c, (l.dropWhile p).head? = some c → p c = false := by
  induction l with
  | nil => intro c h; cases h
  | cons a l ih =>
    intro c h
    rw [List.dropWhile_cons] at h
    split_ifs at h with hp
    · exact ih c h
    · rw [List.head?_cons, Option.some.injEq] at h
      rw [← h]
      exact Bool.not_eq_true _ ▸ hp

/-- `dropWhile` ignores a satisfying prefix. -/
theorem dropWhile_append_all (p : Char → Bool) (w r : List Char)
    (hw : ∀ c ∈ w, p c = true) : (w ++ r).dropWhile p = r.dropWhile p := by
  induction w with
  | nil => rfl
  | cons a w ih =>
    rw [List.cons_append, List.dropWhile_cons, if_pos (hw a (List.mem_cons_self a w))]
    exact ih fun c hc => hw c (List.mem_cons_of_mem _ hc)

/-- `dropWhile` stops at a failing head. -/
theorem dropWhile_head_false (p : Char → Bool) (l : List Char)
    (h : ∀ c, l.head? = some c → p c = false) : l.dropWhile p = l := by
  cases l with
  | nil => rfl
  | cons a l =>
    rw [List.dropWhile_cons, if_neg]
    rw [h a rfl]
    simp

/-- `dropWhile` is idempotent. -/
theorem dropWhile_idem (p : Char → Bool) (l : List Char) :
    (l.dropWhile p).dropWhile p = l.dropWhile p :=
  dropWhile_head_false p _ (head_dropWhile_not p l)

/-- `takeWhile`/`dropWhile` of a decomposed list with a satisfying prefix and a
failing head on the rest. -/
theorem takeWhile_dropWhile_append (p : Char → Bool) (d r : List Char)
    (hd : ∀ c ∈ d, p c = true) (hr : ∀ c, r.head? = some c → p c = false) :
    (d ++ r).takeWhile p = d ∧ (d ++ r).dropWhile p = r := by
  induction d with
  | nil =>
    refine ⟨?_, dropWhile_head_false p r hr⟩
    cases r with
    | nil => rfl
    | cons c r' =>
      rw [List.nil_append, List.takeWhile_cons, if_neg]
      rw [hr c rfl]
      simp
  | cons a d ih =>
    have ha := hd a (List.mem_cons_self a d)
    obtain ⟨h1, h2⟩ := ih fun c hc => hd c (List.mem_cons_of_mem _ hc)
    rw [List.cons_append, List.takeWhile_cons, List.dropWhile_cons, if_pos ha, if_pos ha, h1, h2]
    exact ⟨rfl, rfl⟩

/-- The parser's left fold computes the standard decimal value. -/
theorem foldl_digits_eq (l : List Char) :
    ∀ a : ℕ, l.foldl (fun a c => a * 10 + digitVal c) a
      = a * 10 ^ l.length + decimalVal l := by
  induction l with
  | nil => intro a; simp [decimalVal, Nat.ofDigits]
  | cons c l ih =>
    intro a
    rw [List.foldl_cons, ih]
    unfold decimalVal
    rw [List.map_cons, List.reverse_cons, Nat.ofDigits_append]
    simp only [List.length_reverse, List.length_map, List.length_cons,
      Nat.ofDigits_singleton]
    ring

/-- Characterization of `parseDigits`. -/
theorem parseDigits_iff (l : List Char) (v : ℕ) (r : List Char) :
    parseDigits l = some (v, r) ↔
      ∃ d, l = d ++ r ∧ digitsOnly d ∧ v = decimalVal d ∧ noDigitHead r := by
  constructor
  · intro h
    unfold parseDigits at h
    split_ifs at h with he
    rw [Option.some.injEq, Prod.mk.injEq] at h
    obtain ⟨hv, hr⟩ := h
    refine ⟨l.takeWhile Char.isDigit, ?_, ⟨?_, fun c hc => List.mem_takeWhile_imp hc⟩, ?_, ?_⟩
    · rw [← hr, List.takeWhile_append_dropWhile]
    · intro hnil; rw [hnil] at he; exact he rfl
    · rw [← hv, foldl_digits_eq]; simp
    · rw [← hr]; exact head_dropWhile_not Char.isDigit l
  · rintro ⟨d, rfl, ⟨hne, hd⟩, rfl, hr⟩
    obtain ⟨h1, h2⟩ := takeWhile_dropWhile_append Char.isDigit d r hd hr
    unfold parseDigits
    rw [h1, h2, if_neg]
    · rw [foldl_digits_eq]; simp
    · rw [List.isEmpty_iff]; exact hne

/-- Characterization of `parseSignedInt`: it consumes exactly an `<integer>`
token (optional minus sign, then a maximal digit run). -/
theorem parseSignedInt_iff (l : List Char) (v : Int) (r : List Char) :
    parseSignedInt l = some (v, r) ↔
      ∃ t, l = t ++ r ∧ intTokenVal t v ∧ noDigitHead r := by
  constructor
  · intro h
    unfold parseSignedInt at h
    split_ifs at h with hh
    · obtain ⟨l', rfl⟩ : ∃ l', l = '-' :: l' := by
        cases l with
        | nil => cases hh
        | cons a l' =>
          rw [List.head?_cons, Option.some.injEq] at hh
          exact ⟨l', by rw [hh]⟩
      rcases hp : parseDigits (('-' :: l').tail) with _ | ⟨n, rest⟩
      · rw [hp] at h; cases h
      · rw [hp] at h
        rw [Option.some.injEq, Prod.mk.injEq] at h
        obtain ⟨hv, hr⟩ := h
        rw [List.tail_cons] at hp
        obtain ⟨d, rfl, hd, hval, hnd⟩ := (parseDigits_iff l' n rest).mp hp
        subst hr
        exact ⟨'-' :: d, rfl, Or.inr ⟨d, rfl, hd, by rw [← hv, hval]⟩, hnd⟩
    · rcases hp : parseDigits l with _ | ⟨n, rest⟩
      · rw [hp] at h; cases h
      · rw [hp] at h
        rw [Option.some.injEq, Prod.mk.injEq] at h
        obtain ⟨hv, hr⟩ := h
        obtain ⟨d, rfl, hd, hval, hnd⟩ := (parseDigits_iff l n rest).mp hp
        subst hr
        exact ⟨d, rfl, Or.inl ⟨hd, by rw [← hv, hval]⟩, hnd⟩
  · rintro ⟨t, rfl, ht, hr⟩
    rcases ht with ⟨⟨hne, hd⟩, rfl⟩ | ⟨d, rfl, ⟨hne, hd⟩, rfl⟩
    · have hcond : ¬ ((t ++ r).head? = some '-') := by
        cases t with
        | nil => exact absurd rfl hne
        | cons c t' =>
          rw [List.cons_append, List.head?_cons]
          intro hc
          rw [Option.some.injEq] at hc
          have hdig := hd c (List.mem_cons_self c t')
          rw [hc] at hdig
          exact absurd hdig (by decide)
      unfold parseSignedInt
      rw [if_neg hcond,
        (parseDigits_iff (t ++ r) (decimalVal t) r).mpr ⟨t, rfl, ⟨hne, hd⟩, rfl, hr⟩]
    · unfold parseSignedInt
      rw [List.cons_append, if_pos (by rw [List.head?_cons]), List.tail_cons,
        (parseDigits_iff (d ++ r) (decimalVal d) r).mpr ⟨d, rfl, ⟨hne, hd⟩, rfl, hr⟩]

/-- A whitespace run followed by a non-digit-headed list has no leading digit. -/
theorem noDigitHead_space_append (w l : List Char) (hw : allSpace w)
    (hl : noDigitHead l) : noDigitHead (w ++ l) := by
  cases w with
  | nil => exact hl
  | cons c w' =>
    intro a ha
    rw [List.cons_append, List.head?_cons, Option.some.injEq] at ha
    rw [← ha]
    exact not_digit_of_space c (hw c (List.mem_cons_self c w'))

/-- A comma-headed list has no leading digit. -/
theorem noDigitHead_comma (l : List Char) : noDigitHead (',' :: l) := by
  intro a ha
  rw [List.head?_cons, Option.some.injEq] at ha
  rw [← ha]; decide

/-- The empty list has no leading digit. -/
theorem noDigitHead_nil : noDigitHead ([] : List Char) := fun a ha => by cases ha

/-- An `<integer>` token is non-empty and starts with a non-space character. -/
theorem intToken_head_not_space (t : List Char) (v : Int) (ht : intTokenVal t v) :
    ∃ c t', t = c :: t' ∧ isSpace c = false := by
  rcases ht with ⟨⟨hne, hd⟩, -⟩ | ⟨d, rfl, ⟨hne, hd⟩, -⟩
  · cases t with
    | nil => exact absurd rfl hne
    | cons c t' =>
      exact ⟨c, t', rfl, not_space_of_digit c (hd c (List.mem_cons_self c t'))⟩
  · exact ⟨'-', d, rfl, by decide⟩

/-- Characterization of `parseCoordCore`: it succeeds with `(x, y)` exactly
when the text matches the spec grammar `<integer>,<integer>` with optional
surrounding whitespace. -/
theorem parseCoordCore_iff (s : List Char) (x y : Int) :
    parseCoordCore s = some (x, y) ↔ coordSpecMatch s x y := by
  constructor
  · intro h
    unfold parseCoordCore at h
    rcases h1 : parseSignedInt (s.dropWhile isSpace) with _ | ⟨x', r1⟩
    · rw [h1] at h; cases h
    · rw [h1] at h
      dsimp only at h
      rcases h2 : r1.dropWhile isSpace with _ | ⟨c, r3⟩
      · rw [h2] at h; cases h
      · rw [h2] at h
        dsimp only at h
        split_ifs at h with hc
        subst hc
        rcases h3 : parseSignedInt (r3.dropWhile isSpace) with _ | ⟨y', r5⟩
        · rw [h3] at h; cases h
        · rw [h3] at h
          dsimp only at h
          split_ifs at h with he
          rw [Option.some.injEq, Prod.mk.injEq] at h
          obtain ⟨rfl, rfl⟩ := h
          obtain ⟨t1, hsplit1, ht1, hnd1⟩ := (parseSignedInt_iff _ x' r1).mp h1
          obtain ⟨t2, hsplit2, ht2, hnd2⟩ := (parseSignedInt_iff _ y' r5).mp h3
          refine ⟨s.takeWhile isSpace, t1, r1.takeWhile isSpace, r3.takeWhile isSpace,
            t2, r5, ?_, fun c hc => List.mem_takeWhile_imp hc,
            fun c hc => List.mem_takeWhile_imp hc, fun c hc => List.mem_takeWhile_imp hc,
            ?_, ht1, ht2⟩
          · conv_lhs => rw [← List.takeWhile_append_dropWhile (p := isSpace) (l := s),
              hsplit1,
              ← List.takeWhile_append_dropWhile (p := isSpace) (l := r1), h2,
              ← List.takeWhile_append_dropWhile (p := isSpace) (l := r3), hsplit2]
            simp [List.append_assoc]
          · intro c hc
            have hnil : r5.dropWhile isSpace = [] := List.isEmpty_iff.mp he
            exact List.dropWhile_eq_nil_iff.mp hnil c hc
  · rintro ⟨w1, t1, w2, w3, t2, w4, rfl, hw1, hw2, hw3, hw4, ht1, ht2⟩
    obtain ⟨c1, t1', ht1eq, hc1⟩ := intToken_head_not_space t1 x ht1
    obtain ⟨c2, t2', ht2eq, hc2⟩ := intToken_head_not_space t2 y ht2
    have e1 : (w1 ++ t1 ++ w2 ++ ',' :: (w3 ++ t2 ++ w4)).dropWhile isSpace
        = t1 ++ (w2 ++ ',' :: (w3 ++ t2 ++ w4)) := by
      rw [List.append_assoc, List.append_assoc, dropWhile_append_all isSpace w1 _ hw1,
        ← List.append_assoc]
      exact dropWhile_head_false isSpace _ fun c hcc => by
        rw [ht1eq, List.cons_append, List.cons_append, List.head?_cons,
          Option.some.injEq] at hcc
        rw [← hcc]; exact hc1
    have hsi1 : parseSignedInt (t1 ++ (w2 ++ ',' :: (w3 ++ t2 ++ w4)))
        = some (x, w2 ++ ',' :: (w3 ++ t2 ++ w4)) :=
      (parseSignedInt_iff _ x _).mpr
        ⟨t1, rfl, ht1, noDigitHead_space_append w2 _ hw2 (noDigitHead_comma _)⟩
    have e2 : (w2 ++ ',' :: (w3 ++ t2 ++ w4)).dropWhile isSpace
        = ',' :: (w3 ++ t2 ++ w4) := by
      rw [dropWhile_append_all isSpace w2 _ hw2, List.dropWhile_cons, if_neg (by decide)]
    have e3 : (w3 ++ t2 ++ w4).dropWhile isSpace = t2 ++ w4 := by
      rw [List.append_assoc, dropWhile_append_all isSpace w3 _ hw3]
      exact dropWhile_head_false isSpace _ fun c hcc => by
        rw [ht2eq, List.cons_append, List.head?_cons, Option.some.injEq] at hcc
        rw [← hcc]; exact hc2
    have hsi2 : parseSignedInt (t2 ++ w4) = some (y, w4) :=
      (parseSignedInt_iff _ y _).mpr
        ⟨t2, rfl, ht2, by
          have := noDigitHead_space_append w4 [] hw4 noDigitHead_nil
          rwa [List.append_nil] at this⟩
    have h4 : w4.dropWhile isSpace = [] := List.dropWhile_eq_nil_iff.mpr hw4
    unfold parseCoordCore
    rw [e1, hsi1]
    dsimp only
    rw [e2]
    dsimp only
    rw [if_pos rfl, e3, hsi2]
    dsimp only
    rw [h4]
    rfl

/-- `dropWhile` commutes with appending a failing character at the end. -/
theorem dropWhile_append_singleton (p : Char → Bool) (l : List Char) (c : Char)
    (hc : p c = false) : (l ++ [c]).dropWhile p = l.dropWhile p ++ [c] := by
  induction l with
  | nil => simp [List.dropWhile_cons, hc]
  | cons a l ih =>
    rw [List.cons_append, List.dropWhile_cons, List.dropWhile_cons]
    split_ifs <;> simp [ih]

/-- Stripping `text ++ "-"` keeps the trailing hyphen and any whitespace
before it. -/
theorem stripChars_append_hyphen (l : List Char) :
    stripChars (l ++ ['-']) = l.dropWhile isSpace ++ ['-'] := by
  unfold stripChars
  rw [dropWhile_append_singleton isSpace l '-' (by decide)]
  have hrev : (l.dropWhile isSpace ++ ['-']).reverse = '-' :: (l.dropWhile isSpace).reverse := by
    simp
  rw [hrev, List.dropWhile_cons, if_neg (by decide)]
  simp

/-- Stripping is unaffected by first removing the leading whitespace. -/
theorem stripChars_dropWhile (l : List Char) :
    stripChars (l.dropWhile isSpace) = stripChars l := by
  unfold stripChars
  rw [dropWhile_idem]

/-- Appending the trailing marker never changes the parse, for any payload
whose stripped text does not already end with the marker. -/
theorem parse_coord_append_hyphen (p : String)
    (h : (stripChars p.data).getLast? ≠ some '-') :
    parse_coord (p ++ "-") = parse_coord p := by
  unfold parse_coord
  have hdata : (p ++ "-").data = p.data ++ ['-'] := by
    simp [String.data_append]
  rw [hdata, stripChars_append_hyphen]
  have hlast : (p.data.dropWhile isSpace ++ ['-']).getLast? = some '-' := by simp
  have hdrop : (p.data.dropWhile isSpace ++ ['-']).dropLast = p.data.dropWhile isSpace := by
    simp
  dsimp only
  rw [if_pos hlast, hdrop, stripChars_dropWhile, if_neg h]

/-- C9: the coordinate parser trims whitespace, strips exactly one trailing
hyphen if present, and returns `(x, y)` exactly when the remainder matches
`<integer>,<integer>` with optional surrounding whitespace and optional leading
minus signs; `"x,y-"` and `"x,y"` parse to the identical cell, and `"abc"` is
unparseable. -/
theorem parse_coord_spec :
    (∀ (s : List Char) (x y : Int), parseCoordCore s = some (x, y) ↔ coordSpecMatch s x y) ∧
    (∀ p : String, (stripChars p.data).getLast? ≠ some '-' →
      parse_coord (p ++ "-") = parse_coord p) ∧
    parse_coord "abc" = none ∧
    parse_coord "7,8-" = some (7, 8) ∧ parse_coord "7,8" = some (7, 8) :=
  ⟨parseCoordCore_iff, parse_coord_append_hyphen, by decide, by decide, by decide⟩

/-- Witness for C9 at concrete payloads. -/
theorem parse_coord_spec_witness :
    coordSpecMatch "7,8".data 7 8 ∧ parse_coord ("7,8 " ++ "-") = parse_coord "7,8 " :=
  ⟨(parse_coord_spec.1 "7,8".data 7 8).mp (by decide),
   parse_coord_spec.2.1 "7,8 " (by decide)⟩
